import Mathlib

/-! Shallow embedding of the agent_edx repository.

Embedded source files:
* src/agents/google_gen_ai_agent.py : the function-calling conversation loop
  (GoogleGenAIAgent.__init__, invoke, _generate_content, and the module-level
  call_function helper).
* src/data/company_data_faiss.py    : the nearest-neighbor company resolver
  (CompanyDataFaiss._query_index / query over a FAISS flat-L2 index and a
  row-aligned record table).
* src/tools/company_tools.py        : the find_cik tool.

Modelling conventions:
* The hosted model is a pure function from the transcript (list of turns) to
  the parts of the first candidate of its response.
* Python exceptions are `Except` errors: a KeyError on registry lookup becomes
  `AgentError.unknownTool`, an exception raised inside a tool callable becomes
  `AgentError.toolRaised`, and the IndexError on `parts[0]` of an empty parts
  list becomes `AgentError.emptyParts`.
* The instance attributes set in `__init__` (`function_calling_num`,
  `merged_parts`, `merged_responses`) are an explicit `AgentState` record that
  `invoke` receives and threads; `invoke` does not reset it, mirroring the
  Python code where these are initialized only in the constructor.
* A run additionally produces an `Event` trace recording every model request
  (with the concrete turn list actually sent) and every tool dispatch, in
  order, so that ordering claims are statable.
* The turn dicts `_generate_content` appends to `messages` alias the live
  `self.merged_parts` / `self.merged_responses` lists (only ever extended,
  never rebound), so a later round's extension retroactively changes what an
  earlier appended turn shows.  The transcript is therefore a list of
  `TurnRef` references (the literal initial user turn, or a reference to one
  of the two accumulators), rendered against the current state at each model
  request.
* Embedding vectors are lists of integers and FAISS L2 distance is the exact
  squared euclidean distance; the SentenceTransformer encoder is an abstract
  parameter `String → List Int`.
-/

namespace AgentEdx

/-- Structured (JSON-like) values exchanged with tools. -/
inductive JValue where
  | str (s : String)
  | num (n : Int)
  | boolean (b : Bool)
  | null
deriving DecidableEq

/-- A tool-call request emitted by the model: name plus named arguments. -/
structure FunctionCall where
  name : String
  args : List (String × JValue)
deriving DecidableEq

/-- A part of a turn: plain text, a tool-call request, or a tool-call result
(`genai.protos.Part(function_response=FunctionResponse(name=..., response=...))`,
where the response struct is a key-value mapping). -/
inductive Part where
  | text (s : String)
  | functionCall (fc : FunctionCall)
  | functionResponse (name : String) (response : List (String × JValue))
deriving DecidableEq

/-- Roles used by the Python code: the initial message and the tool-result
turns use role "user"; accumulated model output uses role "model". -/
inductive Role where
  | user
  | model
deriving DecidableEq

/-- One turn of the transcript: a role and its ordered parts. -/
structure Turn where
  role : Role
  parts : List Part
deriving DecidableEq

/-- Observable events of a run: each model request (with the transcript
snapshot passed to `self.model.generate_content`) and each tool dispatch
(the point where the loop prints "Invoking function ..." and calls it). -/
inductive Event where
  | request (messages : List Turn)
  | dispatch (name : String) (args : List (String × JValue))
deriving DecidableEq

/-- Uncaught Python exceptions of the loop. -/
inductive AgentError where
  | unknownTool (name : String)
  | toolRaised (name : String) (msg : String)
  | emptyParts
deriving DecidableEq

/-- A registered tool callable: named arguments in, a structured value out;
`Except.error msg` models the callable raising an exception. -/
def ToolFn : Type := List (String × JValue) → Except String JValue

/-- The functions dictionary passed to the agent constructor. -/
def Registry : Type := List (String × ToolFn)

/-- The hosted model, abstracted: transcript in, parts of the response's
first candidate out. -/
def ModelFn : Type := List Turn → List Part

/-- Embeds `call_function` (google_gen_ai_agent.py lines 9-19):
`functions[function_call.name](**function_call.args)`.  A missing key raises
(KeyError → `unknownTool`); a raising callable propagates (`toolRaised`). -/
def call_function (function_call : FunctionCall) (functions : Registry) :
    Except AgentError JValue :=
  match functions.lookup function_call.name with
  | none => .error (.unknownTool function_call.name)
  | some f =>
    match f function_call.args with
    | .error msg => .error (.toolRaised function_call.name msg)
    | .ok v => .ok v

/-- The instance attributes of `GoogleGenAIAgent` that the loop mutates:
`self.function_calling_num`, `self.merged_parts`, `self.merged_responses`.
They are initialized in `__init__` and threaded (never reset) by `invoke`. -/
structure AgentState where
  function_calling_num : Nat
  merged_parts : List Part
  merged_responses : List Part
deriving DecidableEq

/-- The state set up by `GoogleGenAIAgent.__init__` (lines 49-52):
counter zero, both accumulators empty. -/
def initState : AgentState := ⟨0, [], []⟩

/-- Outcome of the `for part in response.parts` dispatch loop of one round:
the function-response parts appended to `self.merged_responses` (successful
dispatches only), the dispatch events in order, and the first failure if a
lookup or a callable raised (which aborts the loop at that point). -/
structure DispatchResult where
  responses : List Part
  events : List Event
  failure : Option AgentError
deriving Inhabited

/-- Embeds the dispatch loop of `_generate_content` (lines 98-109): walk the
response parts in order; for each tool-call part, invoke the tool and wrap
its return value `result` as the struct `{"result": result}` inside a
function-response part carrying the original tool name. -/
def dispatchLoop (functions : Registry) : List Part → DispatchResult
  | [] => ⟨[], [], none⟩
  | Part.functionCall fc :: rest =>
    match call_function fc functions with
    | .error e => ⟨[], [Event.dispatch fc.name fc.args], some e⟩
    | .ok v =>
      let d := dispatchLoop functions rest
      ⟨Part.functionResponse fc.name [("result", v)] :: d.responses,
        Event.dispatch fc.name fc.args :: d.events, d.failure⟩
  | _ :: rest => dispatchLoop functions rest

/-- `parts[0].function_call` truthiness: true exactly when the first part is
a tool-call request. -/
def firstPartIsToolCall : List Part → Bool
  | Part.functionCall _ :: _ => true
  | _ => false

/-- A run's outcome: the final response (or the uncaught exception), the
instance state after the run, and the ordered event trace. -/
def RunResult : Type :=
  Except AgentError (List Part) × AgentState × List Event

/-- One entry of the live `messages` list.  The turn dicts appended by
`_generate_content` (lines 112-115) store references to the live
`self.merged_parts` / `self.merged_responses` lists — which later rounds
extend in place, retroactively changing what the earlier dicts show — while
the initial user turn built by `invoke` (line 65) holds its own literal
parts list.  A transcript entry is therefore a reference, resolved against
the instance state only when the transcript is sent to the model. -/
inductive TurnRef where
  | literal (t : Turn)
  | modelAccum
  | toolAccum
deriving DecidableEq

/-- Resolve one transcript entry against the current instance state: a
model-accumulator entry reads as the model-role turn holding the current
`self.merged_parts`, a tool-accumulator entry as the user-role turn holding
the current `self.merged_responses`. -/
def renderTurn (st : AgentState) : TurnRef → Turn
  | .literal t => t
  | .modelAccum => ⟨Role.model, st.merged_parts⟩
  | .toolAccum => ⟨Role.user, st.merged_responses⟩

/-- The concrete turn list `self.model.generate_content(messages)` reads
off the live `messages` list at request time. -/
def renderMessages (st : AgentState) (messages : List TurnRef) :
    List Turn :=
  messages.map (renderTurn st)

/-- Embeds `GoogleGenAIAgent._generate_content` (lines 68-119):
increment `self.function_calling_num`; request the model on the transcript
as it reads now (each accumulator-referencing turn rendered against the
current state); if the first part is not a tool call, return the response;
if the incremented counter exceeds `max_function_calling`, return the
response without dispatching; otherwise extend `self.merged_parts` with the
response parts, dispatch every tool-call part in order, append to the live
`messages` list a model turn referencing `self.merged_parts` and a user
turn referencing `self.merged_responses`, and recurse. -/
def generateContent (model : ModelFn) (functions : Registry)
    (max_function_calling : Nat) (st : AgentState)
    (messages : List TurnRef) : RunResult :=
  let response := model (renderMessages st messages)
  if response.isEmpty then
    (.error .emptyParts,
      ⟨st.function_calling_num + 1, st.merged_parts, st.merged_responses⟩,
      [.request (renderMessages st messages)])
  else if firstPartIsToolCall response = false then
    (.ok response,
      ⟨st.function_calling_num + 1, st.merged_parts, st.merged_responses⟩,
      [.request (renderMessages st messages)])
  else if hmax : max_function_calling < st.function_calling_num + 1 then
    (.ok response,
      ⟨st.function_calling_num + 1, st.merged_parts, st.merged_responses⟩,
      [.request (renderMessages st messages)])
  else
    let d := dispatchLoop functions response
    match d.failure with
    | some e =>
      (.error e,
        ⟨st.function_calling_num + 1, st.merged_parts ++ response,
          st.merged_responses ++ d.responses⟩,
        .request (renderMessages st messages) :: d.events)
    | none =>
      let r := generateContent model functions max_function_calling
        ⟨st.function_calling_num + 1, st.merged_parts ++ response,
          st.merged_responses ++ d.responses⟩
        (messages ++ [TurnRef.modelAccum, TurnRef.toolAccum])
      (r.1, r.2.1,
        .request (renderMessages st messages) :: (d.events ++ r.2.2))
termination_by max_function_calling + 1 - st.function_calling_num
decreasing_by omega

/-- Embeds `GoogleGenAIAgent.invoke` (lines 57-66): seed the transcript with
a single (literal) user turn holding the message and run
`_generate_content`.  The instance state `st` is whatever the instance
currently holds; `invoke` does not reset it. -/
def invoke (model : ModelFn) (functions : Registry) (st : AgentState)
    (message : String) (max_function_calling : Nat) : RunResult :=
  generateContent model functions max_function_calling st
    [TurnRef.literal ⟨Role.user, [Part.text message]⟩]

/-- The tool-dispatch events a list of response parts gives rise to: one
dispatch per tool-call part, in part order, other parts skipped. -/
def toolCallEvents : List Part → List Event :=
  List.filterMap fun p =>
    match p with
    | Part.functionCall fc => some (Event.dispatch fc.name fc.args)
    | _ => none

/-- Number of tool dispatches recorded in a trace. -/
def countDispatches (events : List Event) : Nat :=
  (events.filter fun e =>
    match e with
    | Event.dispatch _ _ => true
    | _ => false).length

/-- Transcript lengths of the model requests of a trace, in request order. -/
def requestLengths (events : List Event) : List Nat :=
  events.filterMap fun e =>
    match e with
    | Event.request ms => some ms.length
    | _ => none

/-- One row of the record table (`assets/df.pkl`): display name (`title`)
and identifier (`cik_str`), as loaded from sec_companies.json. -/
structure CompanyRow where
  title : String
  cik_str : Nat
deriving DecidableEq

/-- The two loaded backing-store artifacts of CompanyDataFaiss: the FAISS
flat-L2 index (its stored vectors, in insertion order) and the row-aligned
record table. -/
structure FaissStore where
  vectors : List (List Int)
  rows : List CompanyRow

/-- FAISS L2 metric on stored integer vectors: squared euclidean distance. -/
def sqDist (a b : List Int) : Int :=
  (List.zipWith (fun x y => (x - y) * (x - y)) a b).sum

/-- Position and distance of the nearest stored vector to `q` (first minimal
position on ties, as IndexFlatL2 reports ids in ascending order for equal
distances); `none` on an empty index. -/
def nearestIdx (q : List Int) : List (List Int) → Option (Nat × Int)
  | [] => none
  | v :: rest =>
    match nearestIdx q rest with
    | none => some (0, sqDist q v)
    | some (i, dist) =>
      if sqDist q v ≤ dist then some (0, sqDist q v) else some (i + 1, dist)

/-- `index.search(svec, k=1)`'s returned label `indices[0][0]`: the id of the
nearest stored vector, or -1 when the index holds no vector. -/
def faissSearchOne (vectors : List (List Int)) (q : List Int) : Int :=
  match nearestIdx q vectors with
  | none => -1
  | some (i, _) => (i : Int)

/-- pandas `df.iloc[i]` on the record table: non-negative positions index
from the front, negative positions from the back; out of bounds raises
(modelled as `none`). -/
def ilocGet (rows : List CompanyRow) (i : Int) : Option CompanyRow :=
  if 0 ≤ i then rows.get? i.toNat
  else if i.natAbs ≤ rows.length then rows.get? (rows.length - i.natAbs)
  else none

namespace CompanyDataFaiss

/-- Embeds `CompanyDataFaiss._query_index` (company_data_faiss.py lines
70-95): encode the query, search the index with k=1, take the single label
`indices[0][0]`, fetch `df.iloc[matched_index]`, and return its `title` and
`cik_str`.  The sentence-transformer encoder is abstract.  A raising
`df.iloc` (empty or misaligned table) is `none`. -/
def query_index (store : FaissStore) (encoder : String → List Int)
    (search_query : String) : Option (String × Nat) :=
  let matched_index := faissSearchOne store.vectors (encoder search_query)
  match ilocGet store.rows matched_index with
  | none => none
  | some matched_row => some (matched_row.title, matched_row.cik_str)

/-- Embeds `CompanyDataFaiss.query` (lines 114-121): load the index and the
record table (here: the `store` argument) and delegate to `query_index`. -/
def query (store : FaissStore) (encoder : String → List Int)
    (search_query : String) : Option (String × Nat) :=
  query_index store encoder search_query

end CompanyDataFaiss

/-- Embeds `find_cik` (company_tools.py lines 5-13): resolve the query, bind
the matched company name and cik, and format the returned string from the
CALLER's `company_name` argument and the cik. -/
def find_cik (store : FaissStore) (encoder : String → List Int)
    (company_name : String) : Option String :=
  match CompanyDataFaiss.query store encoder company_name with
  | none => none
  | some (_company, cik) => some (company_name ++ ": " ++ toString cik)

/-- Transcript snapshots of the model requests of a trace, in request
order. -/
def requestTranscripts (events : List Event) : List (List Turn) :=
  events.filterMap fun e =>
    match e with
    | Event.request ms => some ms
    | _ => none

/-! Concrete scripted models, registries and stores used to evaluate the
embedding on closed inputs. -/

/-- A model whose response starts with plain text but carries a trailing
tool-call part. -/
def exModelTextFirst : ModelFn := fun _ =>
  [Part.text "hello", Part.functionCall ⟨"t", [("a", JValue.num 7)]⟩]

/-- A model that always requests the tool "t". -/
def exModelAlways : ModelFn := fun _ => [Part.functionCall ⟨"t", []⟩]

/-- A model that requests a tool name absent from every registry used with
it. -/
def exModelGhost : ModelFn := fun _ => [Part.functionCall ⟨"ghost", []⟩]

/-- A model scripted by transcript length: it requests tool "t" in rounds 1
and 2 (with distinguishable arguments) and answers with text in round 3. -/
def exModelTwoRounds : ModelFn := fun msgs =>
  if 5 ≤ msgs.length then [Part.text "done"]
  else if 3 ≤ msgs.length then [Part.functionCall ⟨"t", [("r", JValue.num 2)]⟩]
  else [Part.functionCall ⟨"t", [("r", JValue.num 1)]⟩]

/-- A registry holding the single tool "t", which returns the string "v". -/
def exRegistry : Registry := [("t", fun _ => .ok (JValue.str "v"))]

/-- A two-company backing store with distinguishable vectors. -/
def exStore : FaissStore :=
  ⟨[[4], [20]], [⟨"Apple Inc.", 320193⟩, ⟨"Alphabet Inc.", 1652044⟩]⟩

/-- The empty backing store. -/
def emptyStore : FaissStore := ⟨[], []⟩

/-- A concrete stand-in encoder: the length of the string as a one
dimensional vector. -/
def exEncoder : String → List Int := fun s => [Int.ofNat s.length]

/-! Helper lemmas about the loop, the dispatch protocol and the traces. -/

/-- Every trace of the loop starts with the model request on the transcript
the call received. -/
theorem generateContent_events_cons (model : ModelFn) (functions : Registry)
    (max_function_calling : Nat) (st : AgentState)
    (messages : List TurnRef) :
    ∃ tl, (generateContent model functions max_function_calling st
      messages).2.2 = Event.request (renderMessages st messages) :: tl := by
  rw [generateContent.eq_def]
  simp only []
  split
  · exact ⟨[], rfl⟩
  · split
    · exact ⟨[], rfl⟩
    · split
      · exact ⟨[], rfl⟩
      · split
        · exact ⟨_, rfl⟩
        · exact ⟨_, rfl⟩

/-- The dispatch loop emits only dispatch events, no model requests. -/
theorem requestLengths_dispatchLoop (functions : Registry)
    (parts : List Part) :
    requestLengths (dispatchLoop functions parts).events = [] := by
  induction parts with
  | nil => rfl
  | cons p rest ih =>
    cases p with
    | text s => simpa [dispatchLoop] using ih
    | functionResponse n r => simpa [dispatchLoop] using ih
    | functionCall fc =>
      simp only [dispatchLoop]
      cases h : call_function fc functions with
      | error e => rfl
      | ok v => simpa [requestLengths] using ih

/-- In a round with no dispatch failure, the dispatch loop's events are
exactly one dispatch per tool-call part, in part order. -/
theorem dispatchLoop_events_of_no_failure (functions : Registry)
    (parts : List Part)
    (h : (dispatchLoop functions parts).failure = none) :
    (dispatchLoop functions parts).events = toolCallEvents parts := by
  induction parts with
  | nil => rfl
  | cons p rest ih =>
    cases p with
    | text s =>
      simp only [dispatchLoop] at h ⊢
      simpa [toolCallEvents] using ih h
    | functionResponse n r =>
      simp only [dispatchLoop] at h ⊢
      simpa [toolCallEvents] using ih h
    | functionCall fc =>
      simp only [dispatchLoop] at h ⊢
      cases hc : call_function fc functions with
      | error e => rw [hc] at h; simp at h
      | ok v =>
        rw [hc] at h
        simp only [] at h
        simp [toolCallEvents, ih h]

/-- The response of a round whose first part is a tool call is nonempty. -/
theorem isEmpty_false_of_firstPartIsToolCall (parts : List Part)
    (h : firstPartIsToolCall parts = true) : parts.isEmpty = false := by
  cases parts with
  | nil => simp [firstPartIsToolCall] at h
  | cons a l => rfl

/-- Trace shape of a dispatching round: the model request on the transcript
as currently rendered, then one dispatch per tool-call part of the response
in part order, then the next model request — whose transcript is the turn
list extended by exactly two accumulator-referencing turns, rendered
against the extended state (so the model turn and the tool-result turn show
ALL accumulated parts, and earlier accumulator turns re-render likewise). -/
theorem toolRound_trace (model : ModelFn) (functions : Registry)
    (max_function_calling : Nat) (st : AgentState) (messages : List TurnRef)
    (hfirst : firstPartIsToolCall (model (renderMessages st messages)) =
      true)
    (hmax : ¬ max_function_calling < st.function_calling_num + 1)
    (hok : (dispatchLoop functions
      (model (renderMessages st messages))).failure = none) :
    ∃ tl, (generateContent model functions max_function_calling st
        messages).2.2 =
      Event.request (renderMessages st messages) ::
        (toolCallEvents (model (renderMessages st messages)) ++
          (Event.request (renderMessages
            ⟨st.function_calling_num + 1,
              st.merged_parts ++ model (renderMessages st messages),
              st.merged_responses ++ (dispatchLoop functions
                (model (renderMessages st messages))).responses⟩
            (messages ++ [TurnRef.modelAccum, TurnRef.toolAccum])) ::
            tl)) := by
  have hne := isEmpty_false_of_firstPartIsToolCall
    (model (renderMessages st messages)) hfirst
  obtain ⟨tl, htl⟩ := generateContent_events_cons model functions
    max_function_calling
    ⟨st.function_calling_num + 1,
      st.merged_parts ++ model (renderMessages st messages),
      st.merged_responses ++ (dispatchLoop functions
        (model (renderMessages st messages))).responses⟩
    (messages ++ [TurnRef.modelAccum, TurnRef.toolAccum])
  refine ⟨tl, ?_⟩
  rw [generateContent.eq_def]
  simp only [hne, Bool.false_eq_true, if_false, hfirst, Bool.true_eq_false,
    dif_neg hmax, hok]
  rw [dispatchLoop_events_of_no_failure functions
    (model (renderMessages st messages)) hok, htl]

theorem requestLengths_cons_request (messages : List Turn) (tl : List Event) :
    requestLengths (Event.request messages :: tl) =
      messages.length :: requestLengths tl := by
  simp [requestLengths]

theorem requestLengths_cons_dispatch (n : String)
    (args : List (String × JValue)) (tl : List Event) :
    requestLengths (Event.dispatch n args :: tl) = requestLengths tl := by
  simp [requestLengths]

theorem requestLengths_append (l1 l2 : List Event) :
    requestLengths (l1 ++ l2) = requestLengths l1 ++ requestLengths l2 := by
  simp [requestLengths]

theorem requestLengths_single (messages : List Turn) (k len : Nat)
    (h : (requestLengths [Event.request messages]).get? k = some len) :
    len = messages.length + 2 * k := by
  cases k with
  | zero => simp [requestLengths] at h; omega
  | succ k => simp [requestLengths] at h

theorem generateContent_requestLengths (model : ModelFn) (functions : Registry)
    (max_function_calling : Nat) :
    ∀ (st : AgentState) (messages : List TurnRef) (k len : Nat),
      (requestLengths (generateContent model functions max_function_calling st
        messages).2.2).get? k = some len →
      len = messages.length + 2 * k := by
  intro st messages
  induction st, messages using generateContent.induct model functions max_function_calling with
  | case1 st messages resp hemp =>
    intro k len h
    have hemp2 : (model (renderMessages st messages)).isEmpty = true := hemp
    rw [generateContent.eq_def] at h
    simp only [] at h
    rw [if_pos hemp2] at h
    simpa [renderMessages] using
      requestLengths_single (renderMessages st messages) k len h
  | case2 st messages resp hemp hfirst =>
    intro k len h
    have hemp2 : ¬ (model (renderMessages st messages)).isEmpty = true := hemp
    have hfirst2 : firstPartIsToolCall (model (renderMessages st messages)) = false := hfirst
    rw [generateContent.eq_def] at h
    simp only [] at h
    rw [if_neg hemp2, if_pos hfirst2] at h
    simpa [renderMessages] using
      requestLengths_single (renderMessages st messages) k len h
  | case3 st messages resp hemp hfirst hmax =>
    intro k len h
    have hemp2 : ¬ (model (renderMessages st messages)).isEmpty = true := hemp
    have hfirst2 : ¬ firstPartIsToolCall (model (renderMessages st messages)) = false := hfirst
    have hmax2 : max_function_calling < st.function_calling_num + 1 := hmax
    rw [generateContent.eq_def] at h
    simp only [] at h
    rw [if_neg hemp2, if_neg hfirst2, dif_pos hmax2] at h
    simpa [renderMessages] using
      requestLengths_single (renderMessages st messages) k len h
  | case4 st messages resp hemp hfirst hmax d e hfail =>
    intro k len h
    have hemp2 : ¬ (model (renderMessages st messages)).isEmpty = true := hemp
    have hfirst2 : ¬ firstPartIsToolCall (model (renderMessages st messages)) = false := hfirst
    have hmax2 : ¬ max_function_calling < st.function_calling_num + 1 := hmax
    have hfail2 : (dispatchLoop functions (model (renderMessages st messages))).failure = some e := hfail
    rw [generateContent.eq_def] at h
    simp only [] at h
    rw [if_neg hemp2, if_neg hfirst2, dif_neg hmax2] at h
    simp only [hfail2] at h
    rw [requestLengths_cons_request, requestLengths_dispatchLoop] at h
    simpa [renderMessages] using
      requestLengths_single (renderMessages st messages) k len (by
        rw [requestLengths_cons_request]
        simpa [requestLengths] using h)
  | case5 st messages resp hemp hfirst hmax d hfail ih =>
    intro k len h
    have hemp2 : ¬ (model (renderMessages st messages)).isEmpty = true := hemp
    have hfirst2 : ¬ firstPartIsToolCall (model (renderMessages st messages)) = false := hfirst
    have hmax2 : ¬ max_function_calling < st.function_calling_num + 1 := hmax
    have hfail2 : (dispatchLoop functions (model (renderMessages st messages))).failure = none := hfail
    rw [generateContent.eq_def] at h
    simp only [] at h
    rw [if_neg hemp2, if_neg hfirst2, dif_neg hmax2] at h
    simp only [hfail2] at h
    rw [requestLengths_cons_request, requestLengths_append,
      requestLengths_dispatchLoop, List.nil_append] at h
    cases k with
    | zero => simp [renderMessages] at h; omega
    | succ k =>
      simp only [List.get?_cons_succ] at h
      have hlen := ih k len h
      simp only [List.length_append, List.length_cons, List.length_nil] at hlen
      omega

theorem getLast?_cons_of_ne_nil {α : Type} (a : α) (l : List α)
    (h : l ≠ []) : (a :: l).getLast? = l.getLast? := by
  cases l with
  | nil => exact absurd rfl h
  | cons b t => simp [List.getLast?_cons_cons]

theorem dispatchLoop_failure_getLast (functions : Registry) :
    ∀ (parts : List Part) (e : AgentError),
      (dispatchLoop functions parts).failure = some e →
      ∃ n args, (dispatchLoop functions parts).events.getLast? =
        some (Event.dispatch n args) := by
  intro parts
  induction parts with
  | nil => intro e h; simp [dispatchLoop] at h
  | cons p rest ih =>
    intro e h
    cases p with
    | text s =>
      simp only [dispatchLoop] at h ⊢
      exact ih e h
    | functionResponse n r =>
      simp only [dispatchLoop] at h ⊢
      exact ih e h
    | functionCall fc =>
      simp only [dispatchLoop] at h ⊢
      cases hc : call_function fc functions with
      | error e2 =>
        exact ⟨fc.name, fc.args, rfl⟩
      | ok v =>
        rw [hc] at h
        dsimp only at h ⊢
        obtain ⟨n, args, hlast⟩ := ih e h
        refine ⟨n, args, ?_⟩
        have hne : (dispatchLoop functions rest).events ≠ [] := by
          intro hnil
          rw [hnil] at hlast
          simp at hlast
        rw [getLast?_cons_of_ne_nil _ _ hne]
        exact hlast

theorem generateContent_error_getLast (model : ModelFn) (functions : Registry)
    (max_function_calling : Nat) :
    ∀ (st : AgentState) (messages : List TurnRef) (e : AgentError),
      (generateContent model functions max_function_calling st messages).1 =
        .error e →
      e ≠ .emptyParts →
      ∃ n args, ((generateContent model functions max_function_calling st
        messages).2.2).getLast? = some (Event.dispatch n args) := by
  intro st messages
  induction st, messages using generateContent.induct model functions max_function_calling with
  | case1 st messages resp hemp =>
    intro e h hne
    have hemp2 : (model (renderMessages st messages)).isEmpty = true := hemp
    rw [generateContent.eq_def] at h
    simp only [] at h
    rw [if_pos hemp2] at h
    simp only [Prod.fst] at h
    exact absurd (Except.error.inj h).symm hne
  | case2 st messages resp hemp hfirst =>
    intro e h hne
    have hemp2 : ¬ (model (renderMessages st messages)).isEmpty = true := hemp
    have hfirst2 : firstPartIsToolCall (model (renderMessages st messages)) = false := hfirst
    rw [generateContent.eq_def] at h
    simp only [] at h
    rw [if_neg hemp2, if_pos hfirst2] at h
    simp at h
  | case3 st messages resp hemp hfirst hmax =>
    intro e h hne
    have hemp2 : ¬ (model (renderMessages st messages)).isEmpty = true := hemp
    have hfirst2 : ¬ firstPartIsToolCall (model (renderMessages st messages)) = false := hfirst
    have hmax2 : max_function_calling < st.function_calling_num + 1 := hmax
    rw [generateContent.eq_def] at h
    simp only [] at h
    rw [if_neg hemp2, if_neg hfirst2, dif_pos hmax2] at h
    simp at h
  | case4 st messages resp hemp hfirst hmax d e2 hfail =>
    intro e h hne
    have hemp2 : ¬ (model (renderMessages st messages)).isEmpty = true := hemp
    have hfirst2 : ¬ firstPartIsToolCall (model (renderMessages st messages)) = false := hfirst
    have hmax2 : ¬ max_function_calling < st.function_calling_num + 1 := hmax
    have hfail2 : (dispatchLoop functions (model (renderMessages st messages))).failure = some e2 :=
      hfail
    rw [generateContent.eq_def] at h ⊢
    simp only [] at h ⊢
    rw [if_neg hemp2, if_neg hfirst2, dif_neg hmax2] at h ⊢
    simp only [hfail2] at h ⊢
    obtain ⟨n, args, hlast⟩ :=
      dispatchLoop_failure_getLast functions (model (renderMessages st messages)) e2 hfail2
    refine ⟨n, args, ?_⟩
    have hne2 : (dispatchLoop functions (model (renderMessages st messages))).events ≠ [] := by
      intro hnil
      rw [hnil] at hlast
      simp at hlast
    rw [getLast?_cons_of_ne_nil _ _ hne2]
    exact hlast
  | case5 st messages resp hemp hfirst hmax d hfail ih =>
    intro e h hne
    have hemp2 : ¬ (model (renderMessages st messages)).isEmpty = true := hemp
    have hfirst2 : ¬ firstPartIsToolCall (model (renderMessages st messages)) = false := hfirst
    have hmax2 : ¬ max_function_calling < st.function_calling_num + 1 := hmax
    have hfail2 : (dispatchLoop functions (model (renderMessages st messages))).failure = none :=
      hfail
    rw [generateContent.eq_def] at h ⊢
    simp only [] at h ⊢
    rw [if_neg hemp2, if_neg hfirst2, dif_neg hmax2] at h ⊢
    simp only [hfail2] at h ⊢
    obtain ⟨n, args, hlast⟩ := ih e h hne
    refine ⟨n, args, ?_⟩
    have hne2 : (generateContent model functions max_function_calling
        ⟨st.function_calling_num + 1,
          st.merged_parts ++ model (renderMessages st messages),
          st.merged_responses ++ (dispatchLoop functions
            (model (renderMessages st messages))).responses⟩
        (messages ++ [TurnRef.modelAccum, TurnRef.toolAccum])).2.2 ≠
        [] := by
      intro hnil
      rw [hnil] at hlast
      simp at hlast
    rw [getLast?_cons_of_ne_nil]
    · rw [List.getLast?_append]
      rw [hlast]
      rfl
    · intro hnil
      rcases List.append_eq_nil.mp hnil with ⟨h1, h2⟩
      exact hne2 h2

theorem generateContent_counter (model : ModelFn) (functions : Registry)
    (max_function_calling : Nat) :
    ∀ (st : AgentState) (messages : List TurnRef),
      (generateContent model functions max_function_calling st
        messages).2.1.function_calling_num =
      st.function_calling_num +
        (requestLengths (generateContent model functions max_function_calling
          st messages).2.2).length := by
  intro st messages
  induction st, messages using generateContent.induct model functions max_function_calling with
  | case1 st messages resp hemp =>
    have hemp2 : (model (renderMessages st messages)).isEmpty = true := hemp
    rw [generateContent.eq_def]
    simp only []
    rw [if_pos hemp2]
    simp [requestLengths]
  | case2 st messages resp hemp hfirst =>
    have hemp2 : ¬ (model (renderMessages st messages)).isEmpty = true := hemp
    have hfirst2 : firstPartIsToolCall (model (renderMessages st messages)) = false := hfirst
    rw [generateContent.eq_def]
    simp only []
    rw [if_neg hemp2, if_pos hfirst2]
    simp [requestLengths]
  | case3 st messages resp hemp hfirst hmax =>
    have hemp2 : ¬ (model (renderMessages st messages)).isEmpty = true := hemp
    have hfirst2 : ¬ firstPartIsToolCall (model (renderMessages st messages)) = false := hfirst
    have hmax2 : max_function_calling < st.function_calling_num + 1 := hmax
    rw [generateContent.eq_def]
    simp only []
    rw [if_neg hemp2, if_neg hfirst2, dif_pos hmax2]
    simp [requestLengths]
  | case4 st messages resp hemp hfirst hmax d e hfail =>
    have hemp2 : ¬ (model (renderMessages st messages)).isEmpty = true := hemp
    have hfirst2 : ¬ firstPartIsToolCall (model (renderMessages st messages)) = false := hfirst
    have hmax2 : ¬ max_function_calling < st.function_calling_num + 1 := hmax
    have hfail2 : (dispatchLoop functions (model (renderMessages st messages))).failure = some e :=
      hfail
    rw [generateContent.eq_def]
    simp only []
    rw [if_neg hemp2, if_neg hfirst2, dif_neg hmax2]
    simp only [hfail2]
    rw [requestLengths_cons_request, requestLengths_dispatchLoop]
    simp
  | case5 st messages resp hemp hfirst hmax d hfail ih =>
    have hemp2 : ¬ (model (renderMessages st messages)).isEmpty = true := hemp
    have hfirst2 : ¬ firstPartIsToolCall (model (renderMessages st messages)) = false := hfirst
    have hmax2 : ¬ max_function_calling < st.function_calling_num + 1 := hmax
    have hfail2 : (dispatchLoop functions (model (renderMessages st messages))).failure = none :=
      hfail
    rw [generateContent.eq_def]
    simp only []
    rw [if_neg hemp2, if_neg hfirst2, dif_neg hmax2]
    simp only [hfail2]
    rw [requestLengths_cons_request, requestLengths_append,
      requestLengths_dispatchLoop, List.nil_append]
    rw [show d = dispatchLoop functions (model (renderMessages st messages)) from rfl] at ih
    rw [show resp = model (renderMessages st messages) from rfl] at ih
    simp only [List.length_cons]
    dsimp only at ih ⊢
    omega

theorem generateContent_accumulators (model : ModelFn) (functions : Registry)
    (max_function_calling : Nat) :
    ∀ (st : AgentState) (messages : List TurnRef),
      (∃ sfx, (generateContent model functions max_function_calling st
        messages).2.1.merged_parts = st.merged_parts ++ sfx) ∧
      (∃ sfx, (generateContent model functions max_function_calling st
        messages).2.1.merged_responses = st.merged_responses ++ sfx) := by
  intro st messages
  induction st, messages using generateContent.induct model functions max_function_calling with
  | case1 st messages resp hemp =>
    have hemp2 : (model (renderMessages st messages)).isEmpty = true := hemp
    rw [generateContent.eq_def]
    simp only []
    rw [if_pos hemp2]
    exact ⟨⟨[], by simp⟩, ⟨[], by simp⟩⟩
  | case2 st messages resp hemp hfirst =>
    have hemp2 : ¬ (model (renderMessages st messages)).isEmpty = true := hemp
    have hfirst2 : firstPartIsToolCall (model (renderMessages st messages)) = false := hfirst
    rw [generateContent.eq_def]
    simp only []
    rw [if_neg hemp2, if_pos hfirst2]
    exact ⟨⟨[], by simp⟩, ⟨[], by simp⟩⟩
  | case3 st messages resp hemp hfirst hmax =>
    have hemp2 : ¬ (model (renderMessages st messages)).isEmpty = true := hemp
    have hfirst2 : ¬ firstPartIsToolCall (model (renderMessages st messages)) = false := hfirst
    have hmax2 : max_function_calling < st.function_calling_num + 1 := hmax
    rw [generateContent.eq_def]
    simp only []
    rw [if_neg hemp2, if_neg hfirst2, dif_pos hmax2]
    exact ⟨⟨[], by simp⟩, ⟨[], by simp⟩⟩
  | case4 st messages resp hemp hfirst hmax d e hfail =>
    have hemp2 : ¬ (model (renderMessages st messages)).isEmpty = true := hemp
    have hfirst2 : ¬ firstPartIsToolCall (model (renderMessages st messages)) = false := hfirst
    have hmax2 : ¬ max_function_calling < st.function_calling_num + 1 := hmax
    have hfail2 : (dispatchLoop functions (model (renderMessages st messages))).failure = some e :=
      hfail
    rw [generateContent.eq_def]
    simp only []
    rw [if_neg hemp2, if_neg hfirst2, dif_neg hmax2]
    simp only [hfail2]
    exact ⟨⟨model (renderMessages st messages), rfl⟩,
      ⟨(dispatchLoop functions (model (renderMessages st messages))).responses, rfl⟩⟩
  | case5 st messages resp hemp hfirst hmax d hfail ih =>
    have hemp2 : ¬ (model (renderMessages st messages)).isEmpty = true := hemp
    have hfirst2 : ¬ firstPartIsToolCall (model (renderMessages st messages)) = false := hfirst
    have hmax2 : ¬ max_function_calling < st.function_calling_num + 1 := hmax
    have hfail2 : (dispatchLoop functions (model (renderMessages st messages))).failure = none :=
      hfail
    rw [generateContent.eq_def]
    simp only []
    rw [if_neg hemp2, if_neg hfirst2, dif_neg hmax2]
    simp only [hfail2]
    rw [show d = dispatchLoop functions (model (renderMessages st messages)) from rfl] at ih
    rw [show resp = model (renderMessages st messages) from rfl] at ih
    dsimp only at ih ⊢
    obtain ⟨⟨s1, hs1⟩, ⟨s2, hs2⟩⟩ := ih
    exact ⟨⟨model (renderMessages st messages) ++ s1, by rw [hs1]; simp⟩,
      ⟨(dispatchLoop functions (model (renderMessages st messages))).responses ++ s2,
        by rw [hs2]; simp⟩⟩

theorem nearestIdx_eq_none (q : List Int) (l : List (List Int))
    (h : nearestIdx q l = none) : l = [] := by
  cases l with
  | nil => rfl
  | cons v rest =>
    simp only [nearestIdx] at h
    cases hr : nearestIdx q rest with
    | none => rw [hr] at h; simp at h
    | some p =>
      cases p with
      | mk i d =>
        rw [hr] at h
        dsimp only at h
        split at h <;> simp at h

theorem nearestIdx_spec (q : List Int) :
    ∀ (l : List (List Int)) (i : Nat) (d : Int),
      nearestIdx q l = some (i, d) →
      ∃ h : i < l.length, d = sqDist q (l.get ⟨i, h⟩) ∧
        ∀ (j : Nat) (hj : j < l.length), d ≤ sqDist q (l.get ⟨j, hj⟩) := by
  intro l
  induction l with
  | nil => intro i d h; simp [nearestIdx] at h
  | cons v rest ih =>
    intro i d h
    simp only [nearestIdx] at h
    cases hr : nearestIdx q rest with
    | none =>
      have hrest : rest = [] := nearestIdx_eq_none q rest hr
      rw [hr] at h
      dsimp only at h
      simp only [Option.some.injEq, Prod.mk.injEq] at h
      obtain ⟨hi, hd⟩ := h
      subst hrest
      subst hi
      subst hd
      refine ⟨by simp, rfl, ?_⟩
      intro j hj
      cases j with
      | zero => exact le_refl _
      | succ j2 =>
        simp at hj
    | some p =>
      cases p with
      | mk i2 d2 =>
        rw [hr] at h
        dsimp only at h
        obtain ⟨hb, hd2, hmin⟩ := ih i2 d2 hr
        by_cases hle : sqDist q v ≤ d2
        · rw [if_pos hle] at h
          simp only [Option.some.injEq, Prod.mk.injEq] at h
          obtain ⟨hi, hd⟩ := h
          subst hi
          subst hd
          refine ⟨by simp, rfl, ?_⟩
          intro j hj
          cases j with
          | zero => exact le_refl _
          | succ j2 =>
            have hj2 : j2 < rest.length := by
              simp at hj
              omega
            exact le_trans hle (hmin j2 hj2)
        · rw [if_neg hle] at h
          simp only [Option.some.injEq, Prod.mk.injEq] at h
          obtain ⟨hi, hd⟩ := h
          subst hi
          subst hd
          refine ⟨by simp; omega, hd2, ?_⟩
          intro j hj
          cases j with
          | zero => exact le_of_not_le hle
          | succ j2 =>
            have hj2 : j2 < rest.length := by
              simp at hj
              omega
            exact hmin j2 hj2

/-! Claim theorems. -/

/-- C1 (amended): each `invoke` does seed a fresh transcript holding only
the single user turn with the initial message, but the round counter and
the two pending accumulators are NOT created fresh per invoke: they are
initialized once in the constructor and carried over — the counter resumes
from the instance's prior value (advancing by one per model request) and
the accumulators extend their prior contents. -/
theorem claim_C1 (model : ModelFn) (functions : Registry) (st : AgentState)
    (message : String) (max_function_calling : Nat) :
    (∃ tl, (AgentEdx.invoke model functions st message
        max_function_calling).2.2 =
      Event.request [⟨Role.user, [Part.text message]⟩] :: tl) ∧
    (AgentEdx.invoke model functions st message
        max_function_calling).2.1.function_calling_num =
      st.function_calling_num +
        (requestLengths (AgentEdx.invoke model functions st message
          max_function_calling).2.2).length ∧
    (∃ sfx, (AgentEdx.invoke model functions st message
        max_function_calling).2.1.merged_parts = st.merged_parts ++ sfx) ∧
    (∃ sfx, (AgentEdx.invoke model functions st message
        max_function_calling).2.1.merged_responses =
      st.merged_responses ++ sfx) := by
  refine ⟨?_, ?_, ?_⟩
  · obtain ⟨tl, htl⟩ := generateContent_events_cons model functions
      max_function_calling st
      [TurnRef.literal ⟨Role.user, [Part.text message]⟩]
    exact ⟨tl, by simpa [renderMessages, renderTurn] using htl⟩
  · exact generateContent_counter model functions max_function_calling st
      [TurnRef.literal ⟨Role.user, [Part.text message]⟩]
  · exact generateContent_accumulators model functions max_function_calling
      st [TurnRef.literal ⟨Role.user, [Part.text message]⟩]

/-- C1 counterexample: with a model that always requests tool "t" and
`max_function_calling = 1`, a first invoke on a freshly constructed
instance leaves the counter at 2 and both accumulators nonempty; a second
invoke on the same instance therefore starts from that carried-over state
and dispatches zero tools, while the first invoke dispatched one — the
claimed fresh-per-invoke state (counter restarting at zero, empty
accumulators) is false on the code. -/
theorem claim_C1_counterexample :
    (AgentEdx.invoke exModelAlways exRegistry initState "a" 1).2.1 =
      ⟨2, [Part.functionCall ⟨"t", []⟩],
        [Part.functionResponse "t" [("result", JValue.str "v")]]⟩ ∧
    countDispatches (AgentEdx.invoke exModelAlways exRegistry initState "a"
      1).2.2 = 1 ∧
    countDispatches (AgentEdx.invoke exModelAlways exRegistry
      (AgentEdx.invoke exModelAlways exRegistry initState "a" 1).2.1 "a"
      1).2.2 = 0 := by
  refine ⟨?_, ?_, ?_⟩ <;>
    simp [invoke, generateContent.eq_def, exModelAlways, exRegistry,
      dispatchLoop, call_function, firstPartIsToolCall, initState,
      countDispatches, renderMessages, renderTurn]

/-- C2: for every model response whose first output part is not a tool-call
request, the loop returns that response as the final result immediately:
the state is only advanced by the counter increment, and the trace holds the
single model request — in particular no tool-call part of that response
(trailing ones included) is ever dispatched. -/
theorem claim_C2 (model : ModelFn) (functions : Registry)
    (max_function_calling : Nat) (st : AgentState)
    (messages : List TurnRef)
    (p : Part) (rest : List Part)
    (hresp : model (renderMessages st messages) = p :: rest)
    (hfirst : firstPartIsToolCall (p :: rest) = false) :
    generateContent model functions max_function_calling st messages =
      (.ok (p :: rest),
        ⟨st.function_calling_num + 1, st.merged_parts, st.merged_responses⟩,
        [.request (renderMessages st messages)]) ∧
    countDispatches (generateContent model functions max_function_calling st
      messages).2.2 = 0 := by
  rw [generateContent.eq_def]
  simp [hresp, hfirst, countDispatches]

/-- C2 witness: a response with leading text and a trailing tool call is
returned whole, with a one-request trace and zero dispatches. -/
theorem claim_C2_witness :
    generateContent exModelTextFirst exRegistry 5 initState
        [TurnRef.literal ⟨Role.user, [Part.text "q"]⟩] =
      (.ok [Part.text "hello",
          Part.functionCall ⟨"t", [("a", JValue.num 7)]⟩],
        ⟨1, [], []⟩,
        [.request [⟨Role.user, [Part.text "q"]⟩]]) ∧
    countDispatches (generateContent exModelTextFirst exRegistry 5 initState
      [TurnRef.literal ⟨Role.user, [Part.text "q"]⟩]).2.2 = 0 := by
  have h := claim_C2 exModelTextFirst exRegistry 5 initState
    [TurnRef.literal ⟨Role.user, [Part.text "q"]⟩]
    (Part.text "hello") [Part.functionCall ⟨"t", [("a", JValue.num 7)]⟩]
    rfl rfl
  simpa [initState, renderMessages, renderTurn] using h

/-- C4: in a round whose first output part is a tool-call request but whose
incremented round counter exceeds the limit, the loop returns that response
as final: the accumulators are untouched and the trace holds the single
model request — zero of the tool calls in the response are dispatched. -/
theorem claim_C4 (model : ModelFn) (functions : Registry)
    (max_function_calling : Nat) (st : AgentState)
    (messages : List TurnRef)
    (hfirst : firstPartIsToolCall (model (renderMessages st messages)) = true)
    (hmax : max_function_calling < st.function_calling_num + 1) :
    generateContent model functions max_function_calling st messages =
      (.ok (model (renderMessages st messages)),
        ⟨st.function_calling_num + 1, st.merged_parts, st.merged_responses⟩,
        [.request (renderMessages st messages)]) ∧
    countDispatches (generateContent model functions max_function_calling st
      messages).2.2 = 0 := by
  have hne : (model (renderMessages st messages)).isEmpty = false := by
    cases h : model (renderMessages st messages) with
    | nil => rw [h] at hfirst; simp [firstPartIsToolCall] at hfirst
    | cons a l => rfl
  rw [generateContent.eq_def]
  simp [hne, hfirst, hmax, countDispatches]

/-- C4 witness: with the counter already at the limit, a tool-requesting
response is returned undished: one request, zero dispatches. -/
theorem claim_C4_witness :
    generateContent exModelAlways exRegistry 2 ⟨2, [], []⟩
        [TurnRef.literal ⟨Role.user, [Part.text "q"]⟩] =
      (.ok [Part.functionCall ⟨"t", []⟩],
        ⟨3, [], []⟩,
        [.request [⟨Role.user, [Part.text "q"]⟩]]) ∧
    countDispatches (generateContent exModelAlways exRegistry 2 ⟨2, [], []⟩
      [TurnRef.literal ⟨Role.user, [Part.text "q"]⟩]).2.2 = 0 := by
  have h := claim_C4 exModelAlways exRegistry 2 ⟨2, [], []⟩
    [TurnRef.literal ⟨Role.user, [Part.text "q"]⟩] rfl (by norm_num)
  simpa [exModelAlways, renderMessages, renderTurn] using h

/-- C5: in a round whose first part is a tool-call request, while the
counter is within the limit and no dispatch fails, every tool-call part of
the response is dispatched exactly once, sequentially, in part order
(`toolCallEvents` maps each tool-call part to its dispatch event), and all
those dispatches sit between this round's model request and the next model
request in the trace. -/
theorem claim_C5 (model : ModelFn) (functions : Registry)
    (max_function_calling : Nat) (st : AgentState)
    (messages : List TurnRef)
    (hfirst : firstPartIsToolCall (model (renderMessages st messages)) = true)
    (hmax : ¬ max_function_calling < st.function_calling_num + 1)
    (hok : (dispatchLoop functions (model (renderMessages st messages))).failure = none) :
    ∃ ms2 tl, (generateContent model functions max_function_calling st
        messages).2.2 =
      Event.request (renderMessages st messages) ::
        (toolCallEvents (model (renderMessages st messages)) ++
          (Event.request ms2 :: tl)) := by
  obtain ⟨tl, htl⟩ := toolRound_trace model functions max_function_calling st
    messages hfirst hmax hok
  exact ⟨_, tl, htl⟩

/-- C5 witness: in the first round of the two-round script, the dispatch of
tool "t" with argument r=1 is the only event between the first and the
second model request. -/
theorem claim_C5_witness :
    ∃ ms2 tl, (generateContent exModelTwoRounds exRegistry 5 initState
        [TurnRef.literal ⟨Role.user, [Part.text "q"]⟩]).2.2 =
      Event.request [⟨Role.user, [Part.text "q"]⟩] ::
        (toolCallEvents (exModelTwoRounds [⟨Role.user, [Part.text "q"]⟩]) ++
          (Event.request ms2 :: tl)) :=
  claim_C5 exModelTwoRounds exRegistry 5 initState
    [TurnRef.literal ⟨Role.user, [Part.text "q"]⟩] rfl (by simp [initState])
    rfl

/-- C3 (amended): in a round that dispatches tool calls, before the next
model request exactly two turns are appended to the live turn list — one
model turn and one tool-result (user) turn — but both reference the shared
accumulators rather than holding this round's parts: rendered at the next
request, the appended model turn holds every model-emitted part accumulated
so far (earlier rounds' parts followed by this round's output parts) and
the appended tool-result turn every accumulated tool-result part; and since
previously appended turns reference the same live lists, they re-render
with the same extended contents (aliasing). -/
theorem claim_C3 (model : ModelFn) (functions : Registry)
    (max_function_calling : Nat) (st : AgentState)
    (messages : List TurnRef)
    (hfirst : firstPartIsToolCall (model (renderMessages st messages)) =
      true)
    (hmax : ¬ max_function_calling < st.function_calling_num + 1)
    (hok : (dispatchLoop functions
      (model (renderMessages st messages))).failure = none) :
    ∃ tl, (generateContent model functions max_function_calling st
        messages).2.2 =
      Event.request (renderMessages st messages) ::
        (toolCallEvents (model (renderMessages st messages)) ++
          (Event.request (renderMessages
              ⟨st.function_calling_num + 1,
                st.merged_parts ++ model (renderMessages st messages),
                st.merged_responses ++ (dispatchLoop functions
                  (model (renderMessages st messages))).responses⟩
              messages ++
            [⟨Role.model, st.merged_parts ++
                model (renderMessages st messages)⟩,
              ⟨Role.user, st.merged_responses ++ (dispatchLoop functions
                (model (renderMessages st messages))).responses⟩]) ::
            tl)) := by
  obtain ⟨tl, htl⟩ := toolRound_trace model functions max_function_calling
    st messages hfirst hmax hok
  refine ⟨tl, ?_⟩
  rw [htl]
  simp [renderMessages, renderTurn]

/-- C3 witness: in the first round of the two-round script (empty
accumulators so far), the second request's transcript is the rendered
seeded turn followed by the model turn `[fc r=1]` and the tool-result turn
holding the wrapped result of "t". -/
theorem claim_C3_witness :
    ∃ tl, (generateContent exModelTwoRounds exRegistry 5 initState
        [TurnRef.literal ⟨Role.user, [Part.text "q"]⟩]).2.2 =
      Event.request [⟨Role.user, [Part.text "q"]⟩] ::
        (toolCallEvents (exModelTwoRounds [⟨Role.user, [Part.text "q"]⟩]) ++
          (Event.request [⟨Role.user, [Part.text "q"]⟩,
            ⟨Role.model, [Part.functionCall ⟨"t", [("r", JValue.num 1)]⟩]⟩,
            ⟨Role.user,
              [Part.functionResponse "t" [("result", JValue.str "v")]]⟩] ::
            tl)) := by
  obtain ⟨tl, htl⟩ := claim_C3 exModelTwoRounds exRegistry 5 initState
    [TurnRef.literal ⟨Role.user, [Part.text "q"]⟩] rfl (by simp [initState])
    rfl
  refine ⟨tl, ?_⟩
  rw [htl]
  simp [renderMessages, renderTurn, exModelTwoRounds, exRegistry,
    dispatchLoop, call_function, initState, toolCallEvents]

/-- C3 counterexample: at the third model request of the two-round script
the program's transcript shows the aliasing: the turns appended in round 1
have been retroactively extended, so BOTH model turns read the two rounds'
tool-call parts [fc r=1, fc r=2] and both tool-result turns the two wrapped
results — the round-2 turns do not hold this round's parts only, and the
claim-predicted transcript (second conjunct, each round's pair holding that
round's parts) differs from what is sent. -/
theorem claim_C3_counterexample :
    (requestTranscripts ((AgentEdx.invoke exModelTwoRounds exRegistry
        initState "q" 5).2.2)).get? 2 =
      some [⟨Role.user, [Part.text "q"]⟩,
        ⟨Role.model, [Part.functionCall ⟨"t", [("r", JValue.num 1)]⟩,
          Part.functionCall ⟨"t", [("r", JValue.num 2)]⟩]⟩,
        ⟨Role.user, [Part.functionResponse "t" [("result", JValue.str "v")],
          Part.functionResponse "t" [("result", JValue.str "v")]]⟩,
        ⟨Role.model, [Part.functionCall ⟨"t", [("r", JValue.num 1)]⟩,
          Part.functionCall ⟨"t", [("r", JValue.num 2)]⟩]⟩,
        ⟨Role.user, [Part.functionResponse "t" [("result", JValue.str "v")],
          Part.functionResponse "t" [("result", JValue.str "v")]]⟩] ∧
    (requestTranscripts ((AgentEdx.invoke exModelTwoRounds exRegistry
        initState "q" 5).2.2)).get? 2 ≠
      some [⟨Role.user, [Part.text "q"]⟩,
        ⟨Role.model, [Part.functionCall ⟨"t", [("r", JValue.num 1)]⟩]⟩,
        ⟨Role.user, [Part.functionResponse "t" [("result", JValue.str "v")]]⟩,
        ⟨Role.model, [Part.functionCall ⟨"t", [("r", JValue.num 2)]⟩]⟩,
        ⟨Role.user,
          [Part.functionResponse "t" [("result", JValue.str "v")]]⟩] := by
  have h : (requestTranscripts ((AgentEdx.invoke exModelTwoRounds exRegistry
      initState "q" 5).2.2)).get? 2 =
      some [⟨Role.user, [Part.text "q"]⟩,
        ⟨Role.model, [Part.functionCall ⟨"t", [("r", JValue.num 1)]⟩,
          Part.functionCall ⟨"t", [("r", JValue.num 2)]⟩]⟩,
        ⟨Role.user, [Part.functionResponse "t" [("result", JValue.str "v")],
          Part.functionResponse "t" [("result", JValue.str "v")]]⟩,
        ⟨Role.model, [Part.functionCall ⟨"t", [("r", JValue.num 1)]⟩,
          Part.functionCall ⟨"t", [("r", JValue.num 2)]⟩]⟩,
        ⟨Role.user, [Part.functionResponse "t" [("result", JValue.str "v")],
          Part.functionResponse "t" [("result", JValue.str "v")]]⟩] := by
    simp [invoke, generateContent.eq_def, exModelTwoRounds, exRegistry,
      dispatchLoop, call_function, firstPartIsToolCall, initState,
      requestTranscripts, renderMessages, renderTurn]
  exact ⟨h, by rw [h]; decide⟩

/-- C6: in every invocation, the transcript passed to the k-th model request
(0-indexed, i.e. the request issued after k completed tool-dispatching
rounds) contains exactly 1 + 2k turns: the initial user turn plus one model
turn and one tool-result turn per completed round.  (Every completed round
dispatches at least one tool call, since its first part is one.) -/
theorem claim_C6 (model : ModelFn) (functions : Registry) (st : AgentState)
    (message : String) (max_function_calling : Nat) (k len : Nat)
    (h : (requestLengths (AgentEdx.invoke model functions st message
      max_function_calling).2.2).get? k = some len) :
    len = 1 + 2 * k := by
  have hlen := generateContent_requestLengths model functions
    max_function_calling st
    [TurnRef.literal ⟨Role.user, [Part.text message]⟩] k len h
  simpa [Nat.add_comm] using hlen

/-- C6 witness: the two-round script issues three requests with transcripts
of 1, 3 and 5 turns; after 2 completed rounds the transcript has
1 + 2 * 2 = 5 turns. -/
theorem claim_C6_witness :
    (requestLengths (AgentEdx.invoke exModelTwoRounds exRegistry initState
      "q" 5).2.2).get? 2 = some 5 ∧ (5 : Nat) = 1 + 2 * 2 := by
  have h : (requestLengths (AgentEdx.invoke exModelTwoRounds exRegistry
      initState "q" 5).2.2).get? 2 = some 5 := by
    simp [invoke, generateContent.eq_def, exModelTwoRounds, exRegistry,
      dispatchLoop, call_function, firstPartIsToolCall, initState,
      requestLengths, renderMessages, renderTurn]
  exact ⟨h, claim_C6 exModelTwoRounds exRegistry initState "q" 5 2 5 h⟩

/-- C7: a failing tool dispatch aborts the whole call.  (1) A tool name
absent from the registry fails with the UnknownTool error; (2) an exception
raised by the tool callable is not caught: it becomes the ToolRaised error;
(3) whenever a run's result is such an error, the error has propagated out
as the final outcome (no retry, no partial result) and the trace ends at
the failing dispatch — no model request, hence no further round, follows
either failure. -/
theorem claim_C7 :
    (∀ (functions : Registry) (fc : FunctionCall),
      functions.lookup fc.name = none →
      call_function fc functions = .error (.unknownTool fc.name)) ∧
    (∀ (functions : Registry) (fc : FunctionCall) (f : ToolFn) (msg : String),
      functions.lookup fc.name = some f → f fc.args = .error msg →
      call_function fc functions = .error (.toolRaised fc.name msg)) ∧
    (∀ (model : ModelFn) (functions : Registry) (max_function_calling : Nat)
      (st : AgentState) (messages : List TurnRef) (e : AgentError),
      (generateContent model functions max_function_calling st
        messages).1 = .error e →
      e ≠ .emptyParts →
      ∃ n args, ((generateContent model functions max_function_calling st
        messages).2.2).getLast? = some (Event.dispatch n args)) := by
  refine ⟨?_, ?_, ?_⟩
  · intro functions fc h
    simp [call_function, h]
  · intro functions fc f msg hlook hraise
    simp [call_function, hlook, hraise]
  · intro model functions max_function_calling st messages e h hne
    exact generateContent_error_getLast model functions max_function_calling
      st messages e h hne

/-- C7 witness: the model requests the unregistered tool "ghost"; the lookup
fails with UnknownTool, the run's result is that error, and the trace ends
at the "ghost" dispatch. -/
theorem claim_C7_witness :
    call_function ⟨"ghost", []⟩ [] =
      .error (.unknownTool "ghost") ∧
    (generateContent exModelGhost [] 5 initState
      [TurnRef.literal ⟨Role.user, [Part.text "q"]⟩]).1 =
      .error (.unknownTool "ghost") ∧
    ∃ n args, ((generateContent exModelGhost [] 5 initState
      [TurnRef.literal ⟨Role.user, [Part.text "q"]⟩]).2.2).getLast? =
      some (Event.dispatch n args) := by
  have h1 : (generateContent exModelGhost ([] : Registry) 5 initState
      [TurnRef.literal ⟨Role.user, [Part.text "q"]⟩]).1 =
      .error (.unknownTool "ghost") := by
    rw [generateContent.eq_def]
    simp [exModelGhost, dispatchLoop, call_function, firstPartIsToolCall,
      initState, renderMessages, renderTurn]
  exact ⟨claim_C7.1 [] ⟨"ghost", []⟩ rfl, h1,
    claim_C7.2.2 exModelGhost [] 5 initState
      [TurnRef.literal ⟨Role.user, [Part.text "q"]⟩]
      (.unknownTool "ghost") h1 (by simp)⟩

/-- C8: a dispatched tool call whose callable returns `v` contributes to the
pending tool results exactly the function-response part that carries the
original tool name and the single-key struct `{"result": v}`; moreover every
part the dispatch loop ever produces has this single-key shape. -/
theorem claim_C8 :
    (∀ (functions : Registry) (fc : FunctionCall) (f : ToolFn) (v : JValue)
      (rest : List Part),
      functions.lookup fc.name = some f → f fc.args = .ok v →
      (dispatchLoop functions (Part.functionCall fc :: rest)).responses =
        Part.functionResponse fc.name [("result", v)] ::
          (dispatchLoop functions rest).responses) ∧
    (∀ (functions : Registry) (parts : List Part) (p : Part),
      p ∈ (dispatchLoop functions parts).responses →
      ∃ n v, p = Part.functionResponse n [("result", v)]) := by
  constructor
  · intro functions fc f v rest hlook hok
    simp [dispatchLoop, call_function, hlook, hok]
  · intro functions parts
    induction parts with
    | nil => intro p hp; simp [dispatchLoop] at hp
    | cons q rest ih =>
      intro p hp
      cases q with
      | text s => exact ih p (by simpa [dispatchLoop] using hp)
      | functionResponse n r => exact ih p (by simpa [dispatchLoop] using hp)
      | functionCall fc =>
        simp only [dispatchLoop] at hp
        cases hc : call_function fc functions with
        | error e => rw [hc] at hp; simp at hp
        | ok v =>
          rw [hc] at hp
          simp only [List.mem_cons] at hp
          cases hp with
          | inl h => exact ⟨fc.name, v, h⟩
          | inr h => exact ih p h

/-- C8 witness: dispatching tool "t" (which returns the string "v") yields
the function-response part named "t" with struct value
`\x7b"result": "v"\x7d`. -/
theorem claim_C8_witness :
    (dispatchLoop exRegistry [Part.functionCall ⟨"t", []⟩]).responses =
      [Part.functionResponse "t" [("result", JValue.str "v")]] := by
  have h := claim_C8.1 exRegistry ⟨"t", []⟩
    (fun _ => .ok (JValue.str "v")) (JValue.str "v") [] rfl rfl
  simpa [dispatchLoop] using h

/-- C9: on a non-empty, row-aligned backing store, the resolver's query
returns the title and cik_str of the record-table row at position i, where
i is the single (k = 1) nearest-neighbor id the index search returns — the
same row, same position — and that id minimizes the L2 distance to the
encoded query over all stored vectors; on the empty backing store the query
fails (`none`, the raising `df.iloc`) rather than returning a value. -/
theorem claim_C9 :
    (∀ (store : FaissStore) (encoder : String → List Int) (q : String),
      store.vectors ≠ [] → store.vectors.length = store.rows.length →
      ∃ (i : Nat) (hv : i < store.vectors.length)
        (hr : i < store.rows.length),
        faissSearchOne store.vectors (encoder q) = (i : Int) ∧
        (∀ (j : Nat) (hj : j < store.vectors.length),
          sqDist (encoder q) (store.vectors.get ⟨i, hv⟩) ≤
            sqDist (encoder q) (store.vectors.get ⟨j, hj⟩)) ∧
        CompanyDataFaiss.query store encoder q =
          some ((store.rows.get ⟨i, hr⟩).title,
            (store.rows.get ⟨i, hr⟩).cik_str)) ∧
    (∀ (store : FaissStore) (encoder : String → List Int) (q : String),
      store.vectors = [] → store.rows = [] →
      CompanyDataFaiss.query store encoder q = none) := by
  constructor
  · intro store encoder q hne hlen
    cases hn : nearestIdx (encoder q) store.vectors with
    | none => exact absurd (nearestIdx_eq_none _ _ hn) hne
    | some p =>
      cases p with
      | mk i d =>
        obtain ⟨hv, hd, hmin⟩ :=
          nearestIdx_spec (encoder q) store.vectors i d hn
        have hr : i < store.rows.length := by omega
        refine ⟨i, hv, hr, ?_, ?_, ?_⟩
        · simp [faissSearchOne, hn]
        · intro j hj
          rw [← hd]
          exact hmin j hj
        · simp [CompanyDataFaiss.query, CompanyDataFaiss.query_index,
            faissSearchOne, hn, ilocGet, List.getElem?_eq_getElem hr]
  · intro store encoder q hv hr
    simp [CompanyDataFaiss.query, CompanyDataFaiss.query_index,
      faissSearchOne, hv, hr, nearestIdx, ilocGet]

/-- C9 witness: against the two-company store, querying "apple" (encoded
[5], nearest to [4] = row 0) returns ("Apple Inc.", 320193) taken from row
0, and the empty store yields no value. -/
theorem claim_C9_witness :
    (∃ (i : Nat) (hv : i < exStore.vectors.length)
      (hr : i < exStore.rows.length),
      faissSearchOne exStore.vectors (exEncoder "apple") = (i : Int) ∧
      (∀ (j : Nat) (hj : j < exStore.vectors.length),
        sqDist (exEncoder "apple") (exStore.vectors.get ⟨i, hv⟩) ≤
          sqDist (exEncoder "apple") (exStore.vectors.get ⟨j, hj⟩)) ∧
      CompanyDataFaiss.query exStore exEncoder "apple" =
        some ((exStore.rows.get ⟨i, hr⟩).title,
          (exStore.rows.get ⟨i, hr⟩).cik_str)) ∧
    CompanyDataFaiss.query emptyStore exEncoder "apple" = none :=
  ⟨claim_C9.1 exStore exEncoder "apple" (by simp [exStore]) rfl,
    claim_C9.2 emptyStore exEncoder "apple" rfl rfl⟩

/-- C10: whenever the resolver returns a match, the find_cik tool's output
string is built from the caller's input text verbatim and the matched cik:
the matched display name is discarded (it does not occur in the
conclusion). -/
theorem claim_C10 (store : FaissStore) (encoder : String → List Int)
    (company_name matched_name : String) (cik : Nat)
    (h : CompanyDataFaiss.query store encoder company_name =
      some (matched_name, cik)) :
    find_cik store encoder company_name =
      some (company_name ++ ": " ++ toString cik) := by
  simp [find_cik, h]

/-- C10 witness: querying "apple" against a store whose matched row is
titled "Apple Inc." yields "apple: 320193" — the input text, not the
matched name. -/
theorem claim_C10_witness :
    find_cik exStore exEncoder "apple" = some ("apple: 320193") ∧
    ("apple: 320193" : String) ≠ "Apple Inc.: 320193" := by
  constructor
  · have h := claim_C10 exStore exEncoder "apple" "Apple Inc." 320193
      (by decide)
    simpa using h
  · decide

end AgentEdx
